import Mathlib

/-!
Verification development for the Market Rewind replay engine
(`src/streamlit_app.py`). Times are modelled as whole minutes since the
proleptic Gregorian epoch 0001-01-01 (UTC); prices and volumes as integers.
Each definition embeds the Python function named in its doc comment.
-/

/-- One raw OHLCV record as produced by `load_master_data`
(columns `time, open, high, low, close, volume`); `time` is the
UTC timestamp in minutes, `o/h/l/c/v` stand for open, high, low,
close, volume. -/
structure Bar where
  time : Nat
  o : Int
  h : Int
  l : Int
  c : Int
  v : Int
deriving Repr, DecidableEq

/-- An aggregated candle as produced by `resample_data`: a `Bar`
plus the derived display `color` column. -/
structure BarC extends Bar where
  color : String
deriving Repr, DecidableEq

/-- The red fill used by `resample_data` for down candles. -/
def redColor : String := "rgba(239, 83, 80, 0.8)"

/-- The green fill used by `resample_data` for up candles. -/
def greenColor : String := "rgba(38, 166, 154, 0.8)"

/-- `np.where(open > close, red, green)` applied to one row of
`resample_data`'s output. -/
def colorOf (o c : Int) : String := if o > c then redColor else greenColor

/-- Start of the width-`tf` aggregation bucket containing minute `t`:
pandas `df.resample(timeframe)` buckets timestamps into epoch-aligned
windows labelled by their left edge. -/
def bucketStart (tf t : Nat) : Nat := t / tf * tf

/-- The OHLCV reduction `{'open':'first','high':'max','low':'min',
'close':'last','volume':'sum'}` of `resample_data` applied to the bucket
of `df` that starts at `bkt`; `none` when the bucket has no contributing
rows (pandas `dropna()` removes such rows). -/
def aggBucket (tf : Nat) (df : List Bar) (bkt : Nat) : Option BarC :=
  match df.filter (fun x => bucketStart tf x.time == bkt) with
  | [] => none
  | x :: xs =>
    let o := x.o
    let c := (xs.getLastD x).c
    some { time := bkt, o := o,
           h := xs.foldl (fun a y => max a y.h) x.h,
           l := xs.foldl (fun a y => min a y.l) x.l,
           c := c, v := x.v + (xs.map Bar.v).sum,
           color := colorOf o c }

/-- `resample_data(df, timeframe)`: group the rows of `df` into width-`tf`
buckets, reduce each non-empty bucket by first/max/min/last/sum, drop empty
buckets, and attach the `color` column. Bucket labels appear in order of
first occurrence, which for time-ordered input is ascending time order
(pandas emits buckets sorted by label). -/
def resample (df : List Bar) (tf : Nat) : List BarC :=
  ((df.map fun b => bucketStart tf b.time).dedup).filterMap (aggBucket tf df)

/-- The raw-data slice `master_data_raw[master_data_raw['time'] <= global_dt]`
performed in `render_chart_unit`'s replay branch. -/
def sliceRaw (df : List Bar) (cutoff : Nat) : List Bar :=
  df.filter (fun b => b.time ≤ cutoff)

/-- The replay branch of `render_chart_unit`'s dynamic resampling logic:
slice the raw 1-minute data at the playhead, then resample only the
visible data. -/
def replayView (df : List Bar) (tf cutoff : Nat) : List BarC :=
  resample (sliceRaw df cutoff) tf

/-- The full dynamic-resampling dispatch of `render_chart_unit`
(lines building `final_chart_data`): empty raw data yields an empty
frame; replay mode with a playhead slices first; otherwise the full
data is resampled. -/
def renderChartData (raw : List Bar) (isReplayMode : Bool)
    (globalDt : Option Nat) (tf : Nat) : List BarC :=
  if raw.isEmpty then []
  else
    match isReplayMode, globalDt with
    | true, some t => replayView raw tf t
    | _, _ => resample raw tf

/-- Width in minutes of each timeframe aggregation string of `tf_map`
(`"1min"/"5min"/"15min"/"30min"/"1H"/"1D"`), i.e. the value of
`pd.to_timedelta(sel_tf_agg)` expressed in minutes; unknown strings map
to 0 (they do not occur). -/
def tfWidthMin (tfAgg : String) : Nat :=
  if tfAgg = "1min" then 1
  else if tfAgg = "5min" then 5
  else if tfAgg = "15min" then 15
  else if tfAgg = "30min" then 30
  else if tfAgg = "1H" then 60
  else if tfAgg = "1D" then 1440
  else 0

/-- The per-chart configuration visible to `render_chart_unit`: the
selected timeframe aggregation string, the `c{i}_view_mode` selectbox
value, and the raw series loaded for the selected ticker (empty when no
ticker is available or the query returned nothing). -/
structure ViewConfig where
  tfAgg : String
  viewMode : String
  rawData : List Bar
deriving Repr, DecidableEq

/-- The `st.session_state.chart_deltas` dictionary after one render pass:
`render_chart_unit` stores `pd.to_timedelta(sel_tf_agg)` for every
rendered chart, unconditionally. -/
def chartDeltas (views : List ViewConfig) : List Nat :=
  views.map fun v_ => tfWidthMin v_.tfAgg

/-- `min(st.session_state.chart_deltas.values())` with the
`pd.Timedelta("1min")` fallback for an empty dictionary, as computed in
`render_workspace_fragment` (and in `on_prev_click`/`on_next_click`). -/
def minDelta (ds : List Nat) : Nat :=
  match ds with
  | [] => 1
  | d :: ds' => ds'.foldl min d

/-- Spec's step-size resolver, stated for comparison with the code's
`minDelta ∘ chartDeltas`: the minimum timeframe width over exactly the
views currently in replay mode that have data, defaulting to 1 minute. -/
def minDeltaSpec (views : List ViewConfig) : Nat :=
  minDelta ((views.filter fun v_ =>
    v_.viewMode == "Replay Mode" && !v_.rawData.isEmpty).map
      fun v_ => tfWidthMin v_.tfAgg)

/-- A calendar date (proleptic Gregorian), as held by the
`global_picker_val` date widget. -/
structure DateYMD where
  y : Nat
  m : Nat
  d : Nat
deriving Repr, DecidableEq

/-- Gregorian leap-year test. -/
def isLeap (y : Nat) : Bool := (y % 4 == 0 && y % 100 != 0) || y % 400 == 0

/-- Days in the months strictly before month `m` of a non-leap year. -/
def monthDaysBefore (m : Nat) : Nat :=
  match m with
  | 1 => 0 | 2 => 31 | 3 => 59 | 4 => 90 | 5 => 120 | 6 => 151
  | 7 => 181 | 8 => 212 | 9 => 243 | 10 => 273 | 11 => 304 | 12 => 334
  | _ => 0

/-- Day index of a date: days elapsed since 0001-01-01 (day 0) in the
proleptic Gregorian calendar. -/
def dayNumber (d : DateYMD) : Nat :=
  365 * (d.y - 1) + ((d.y - 1) / 4 - (d.y - 1) / 100 + (d.y - 1) / 400)
    + monthDaysBefore d.m + (if d.m > 2 && isLeap d.y then 1 else 0)
    + (d.d - 1)

/-- Day of week of a date, 0 = Monday … 6 = Sunday. -/
def dayOfWeek (d : DateYMD) : Nat := dayNumber d % 7

/-- Day of month of the first Sunday of month `m` of year `y`. -/
def firstSundayDay (y m : Nat) : Nat :=
  1 + (13 - dayOfWeek ⟨y, m, 1⟩) % 7

/-- Models pytz's America/New_York daylight-saving rule (post-2007 US
rules: DST from the second Sunday of March to the first Sunday of
November), evaluated at a daytime/evening local time, i.e. after the
02:00 switch on the transition days themselves. -/
def nyIsDST (d : DateYMD) : Bool :=
  if d.m < 3 then false
  else if d.m > 11 then false
  else if d.m == 3 then decide (firstSundayDay d.y 3 + 7 ≤ d.d)
  else if d.m == 11 then decide (d.d < firstSundayDay d.y 11)
  else true

/-- UTC-offset magnitude of America/New_York in minutes on date `d`
(UTC = local + offset): 240 under daylight saving, 300 otherwise. -/
def nyUtcOffsetMin (d : DateYMD) : Nat := if nyIsDST d then 240 else 300

/-- Models `ny_tz.localize(datetime.combine(date, time)).astimezone(pytz.UTC)`
for `ny_tz = pytz.timezone('America/New_York')`: a New-York-local wall
time `localMin` (minutes after local midnight) on date `d`, converted to
UTC minutes since the epoch using that date's DST offset. -/
def nyLocalToUTCmin (d : DateYMD) (localMin : Nat) : Nat :=
  dayNumber d * 1440 + localMin + nyUtcOffsetMin d

/-- The 09:29 anchor time-of-day (`datetime.time(9, 29)`) in minutes. -/
def anchorMin : Nat := 9 * 60 + 29

/-- The global replay state held in `st.session_state` by
`render_workspace_fragment`: the UTC playhead `global_dt` (minutes),
`global_playing`, `replay_active`, the picker date `global_picker_val`,
the per-chart `c{i}_view_mode` strings, the frame's `has_valid_data`
flag, the values of the `chart_deltas` dictionary, and the selected
`global_speed_val` in seconds. -/
structure SessionState where
  globalDt : Nat
  playing : Bool
  replayActive : Bool
  pickerVal : DateYMD
  viewModes : List String
  hasValidData : Bool
  chartDeltasVals : List Nat
  speed : ℚ
deriving Repr, DecidableEq

/-- The toast text emitted by the no-data guards of `on_play_click`,
`on_prev_click` and `on_next_click`. -/
def noDataToast : String := "No data available for this date!"

/-- `on_play_click`: guarded by `has_valid_data`; on success sets
`global_playing` and `replay_active` and forces every chart's view mode
to Replay Mode. Returns the new state and the toasts emitted. -/
def onPlayClick (s : SessionState) : SessionState × List String :=
  if !s.hasValidData then (s, [noDataToast])
  else
    ({ s with playing := true, replayActive := true,
              viewModes := s.viewModes.map fun _ => "Replay Mode" }, [])

/-- `on_pause_click`: clears `global_playing`. -/
def onPauseClick (s : SessionState) : SessionState × List String :=
  ({ s with playing := false }, [])

/-- `on_next_click`: guarded by `has_valid_data`; on success advances
`global_dt` by the minimum chart delta (1 minute when the dictionary is
empty) and sets `replay_active`. -/
def onNextClick (s : SessionState) : SessionState × List String :=
  if !s.hasValidData then (s, [noDataToast])
  else
    ({ s with globalDt := s.globalDt + minDelta s.chartDeltasVals,
              replayActive := true }, [])

/-- `on_date_change`: stores the new picker date, resets `global_dt` to
09:29 America/New_York on that date converted to UTC, clears
`global_playing`, sets `replay_active`, and forces every chart's view
mode to Replay Mode. -/
def onDateChange (newDate : DateYMD) (s : SessionState) :
    SessionState × List String :=
  ({ s with pickerVal := newDate,
            globalDt := nyLocalToUTCmin newDate anchorMin,
            playing := false,
            replayActive := true,
            viewModes := s.viewModes.map fun _ => "Replay Mode" }, [])

/-- Observable actions of one scheduling cycle of
`render_workspace_fragment`'s play loop. -/
inductive PlayAction where
  | sleepFor (secs : ℚ)
  | advance (deltaMin : Nat)
  | rerun
deriving Repr, DecidableEq

/-- The `EXECUTE PLAY LOOP` tail of `render_workspace_fragment`: when
`global_playing` is set, sleep for `global_speed_val` seconds, advance
`global_dt` by `min_delta`, and call `st.rerun()`; otherwise do
nothing. Returns the new state and the ordered action trace. -/
def endOfCycle (s : SessionState) : SessionState × List PlayAction :=
  if s.playing then
    ({ s with globalDt := s.globalDt + minDelta s.chartDeltasVals },
     [PlayAction.sleepFor s.speed,
      PlayAction.advance (minDelta s.chartDeltasVals),
      PlayAction.rerun])
  else (s, [])

/-- One raw row of the `market_data` query result, all fields still
text as delivered by the store. -/
structure RawRow where
  timestamp : String
  o : String
  h : String
  l : String
  c : String
  v : String
deriving Repr, DecidableEq

/-- Decimal digit accumulator: `none` as soon as a non-digit character
appears. -/
def parseDigitsAux : List Char → Nat → Option Nat
  | [], acc => some acc
  | ch :: cs, acc =>
    if ch.isDigit then parseDigitsAux cs (acc * 10 + (ch.toNat - 48))
    else none

/-- Models `pd.to_datetime(utc=True)` on one stored timestamp value,
rendered as a decimal UTC-minute string: `none` exactly when the text is
malformed. -/
def parseNatStr (s_ : String) : Option Nat :=
  match s_.data with
  | [] => none
  | cs => parseDigitsAux cs 0

/-- Models `pd.to_numeric` on one stored numeric field (optional leading
minus sign, then decimal digits): `none` exactly when malformed. -/
def parseIntStr (s_ : String) : Option Int :=
  match s_.data with
  | [] => none
  | '-' :: cs => (parseDigitsAux cs 0).map fun n => -(n : Int)
  | cs => (parseDigitsAux cs 0).map fun n => (n : Int)

/-- One row of the frame-wide type conversion of `load_master_data`
(`pd.to_datetime` on the timestamp, `pd.to_numeric` on each price and
volume column): `none` when any field is malformed — the surrounding
try/except then discards the whole series. -/
def parseRow (r_ : RawRow) : Option Bar := do
  let t ← parseNatStr r_.timestamp
  let o ← parseIntStr r_.o
  let h ← parseIntStr r_.h
  let l ← parseIntStr r_.l
  let c ← parseIntStr r_.c
  let v ← parseIntStr r_.v
  pure ⟨t, o, h, l, c, v⟩

/-- `load_master_data` below the query: a failed query (the outer
try/except) yields an empty frame plus a DB-read error report; an empty
result set is returned as-is; a type-conversion failure on any row (the
inner try/except around `pd.to_datetime`/`pd.to_numeric`) yields an
empty frame plus a parse error report; otherwise the fully typed
series. Returns the series and the error messages reported. -/
def loadMasterData (queryResult : Except String (List RawRow)) :
    List Bar × List String :=
  match queryResult with
  | Except.error e => ([], ["DB READ ERROR: " ++ e])
  | Except.ok rows =>
    if rows.isEmpty then ([], [])
    else
      match rows.mapM parseRow with
      | none => ([], ["DATA PARSING ERROR"])
      | some bars => (bars, [])

/-- UTC calendar date (as a day index) of a UTC minute timestamp:
`df['time'].dt.date` for tz-aware UTC timestamps. -/
def utcDateOf (t : Nat) : Nat := t / 1440

/-- `(master_data_raw['time'].dt.date == current_picker_date).any()`
from `render_chart_unit`'s data guard. -/
def hasDataForDate (raw : List Bar) (pickerDay : Nat) : Bool :=
  raw.any fun b => utcDateOf b.time == pickerDay

/-- The frame-wide `has_valid_data` flag: reset to `False` at the top of
`render_workspace_fragment`, then each rendered chart with a non-empty
raw series whose UTC dates hit the picker date sets it to `True`. -/
def computeHasValidData (charts : List (List Bar)) (pickerDay : Nat) : Bool :=
  charts.foldl
    (fun acc raw =>
      if !raw.isEmpty && hasDataForDate raw pickerDay then true else acc)
    false

/-! ### Helper lemmas about the aggregation core -/

theorem foldl_max_init_le {A : Type} [LinearOrder A] (l : List A) (a : A) : a ≤ l.foldl max a := by
  induction l generalizing a with
  | nil => exact le_refl a
  | cons y ys ih => exact le_trans (le_max_left a y) (ih (max a y))

theorem foldl_max_mem_le {A : Type} [LinearOrder A] (l : List A) (a : A) :
    ∀ y ∈ l, y ≤ l.foldl max a := by
  induction l generalizing a with
  | nil => intro y hy; cases hy
  | cons z zs ih =>
    intro y hy
    rcases List.mem_cons.mp hy with h | h
    · subst h
      exact le_trans (le_max_right a y) (foldl_max_init_le zs (max a y))
    · exact ih (max a z) y h

theorem foldl_max_eq_init_or_mem {A : Type} [LinearOrder A] (l : List A) (a : A) :
    l.foldl max a = a ∨ l.foldl max a ∈ l := by
  induction l generalizing a with
  | nil => exact Or.inl rfl
  | cons z zs ih =>
    rcases ih (max a z) with h | h
    · rcases max_choice a z with hm | hm
      · exact Or.inl (by rw [List.foldl_cons, h, hm])
      · exact Or.inr (by rw [List.foldl_cons, h, hm]; exact List.mem_cons_self z zs)
    · exact Or.inr (List.mem_cons_of_mem z h)

theorem foldl_min_le_init {A : Type} [LinearOrder A] (l : List A) (a : A) : l.foldl min a ≤ a := by
  induction l generalizing a with
  | nil => exact le_refl a
  | cons y ys ih => exact le_trans (ih (min a y)) (min_le_left a y)

theorem foldl_min_le_mem {A : Type} [LinearOrder A] (l : List A) (a : A) :
    ∀ y ∈ l, l.foldl min a ≤ y := by
  induction l generalizing a with
  | nil => intro y hy; cases hy
  | cons z zs ih =>
    intro y hy
    rcases List.mem_cons.mp hy with h | h
    · subst h
      exact le_trans (foldl_min_le_init zs (min a y)) (min_le_right a y)
    · exact ih (min a z) y h

theorem foldl_min_eq_init_or_mem {A : Type} [LinearOrder A] (l : List A) (a : A) :
    l.foldl min a = a ∨ l.foldl min a ∈ l := by
  induction l generalizing a with
  | nil => exact Or.inl rfl
  | cons z zs ih =>
    rcases ih (min a z) with h | h
    · rcases min_choice a z with hm | hm
      · exact Or.inl (by rw [List.foldl_cons, h, hm])
      · exact Or.inr (by rw [List.foldl_cons, h, hm]; exact List.mem_cons_self z zs)
    · exact Or.inr (List.mem_cons_of_mem z h)

theorem bucketStart_le (tf t : Nat) : bucketStart tf t ≤ t :=
  Nat.div_mul_le_self t tf

theorem lt_bucketStart_add (tf t : Nat) (htf : 0 < tf) :
    t < bucketStart tf t + tf := by
  have h1 : t / tf * tf + t % tf = t := Nat.div_add_mod' t tf
  have h2 : t % tf < tf := Nat.mod_lt t htf
  unfold bucketStart
  omega

theorem bucketStart_mod (tf t : Nat) : bucketStart tf t % tf = 0 :=
  Nat.mul_mod_left (t / tf) tf

theorem add_le_of_multiple_lt {tf b T : Nat} (hb : b % tf = 0)
    (hT : T % tf = 0) (h : b < T) : b + tf ≤ T := by
  obtain ⟨qb, rfl⟩ := Nat.dvd_of_mod_eq_zero hb
  obtain ⟨qT, rfl⟩ := Nat.dvd_of_mod_eq_zero hT
  rcases Nat.eq_zero_or_pos tf with h0 | h0
  · subst h0; simp at h
  · have hq : qb < qT := Nat.lt_of_mul_lt_mul_left h
    calc tf * qb + tf = tf * (qb + 1) := by ring
    _ ≤ tf * qT := Nat.mul_le_mul_left tf hq

theorem aggBucket_time {tf : Nat} {df : List Bar} {bkt : Nat} {r_ : BarC}
    (h : aggBucket tf df bkt = some r_) : r_.time = bkt := by
  cases hf : df.filter (fun x => bucketStart tf x.time == bkt) with
  | nil => simp [aggBucket, hf] at h
  | cons x xs =>
    simp only [aggBucket, hf, Option.some.injEq] at h
    rw [← h]

theorem aggBucket_congr {tf bkt : Nat} {df1 df2 : List Bar}
    (h : df1.filter (fun x => bucketStart tf x.time == bkt)
       = df2.filter (fun x => bucketStart tf x.time == bkt)) :
    aggBucket tf df1 bkt = aggBucket tf df2 bkt := by
  unfold aggBucket
  rw [h]

theorem aggBucket_isSome_of_mem {tf bkt : Nat} {df : List Bar} {x : Bar}
    (hx : x ∈ df) (hb : bucketStart tf x.time = bkt) :
    ∃ r_, aggBucket tf df bkt = some r_ := by
  cases hk : aggBucket tf df bkt with
  | some r_ => exact ⟨r_, rfl⟩
  | none =>
    exfalso
    cases hf : df.filter (fun y => bucketStart tf y.time == bkt) with
    | cons y ys => simp [aggBucket, hf] at hk
    | nil =>
      have hmem : x ∈ df.filter (fun y => bucketStart tf y.time == bkt) :=
        List.mem_filter.mpr ⟨hx, by simp [hb]⟩
      rw [hf] at hmem
      cases hmem

theorem mem_resample {df : List Bar} {tf : Nat} {r_ : BarC} :
    r_ ∈ resample df tf ↔
      ∃ bkt, (∃ x ∈ df, bucketStart tf x.time = bkt)
        ∧ aggBucket tf df bkt = some r_ := by
  unfold resample
  rw [List.mem_filterMap]
  constructor
  · rintro ⟨b, hb, hab⟩
    rw [List.mem_dedup, List.mem_map] at hb
    obtain ⟨x, hx, rfl⟩ := hb
    exact ⟨_, ⟨x, hx, rfl⟩, hab⟩
  · rintro ⟨b, ⟨x, hx, hbx⟩, hab⟩
    refine ⟨b, ?_, hab⟩
    rw [List.mem_dedup, List.mem_map]
    exact ⟨x, hx, hbx⟩

theorem filterMap_aggBucket_times_sublist (tf : Nat) (df : List Bar)
    (keys : List Nat) :
    ((keys.filterMap (aggBucket tf df)).map fun r_ => r_.time).Sublist keys := by
  induction keys with
  | nil => simp
  | cons k ks ih =>
    rw [List.filterMap_cons]
    cases hk : aggBucket tf df k with
    | none => exact ih.cons k
    | some r_ =>
      rw [List.map_cons, aggBucket_time hk]
      exact ih.cons₂ k

theorem resample_times_sorted (df : List Bar) (tf : Nat)
    (hs : List.Sorted (· ≤ ·) (df.map Bar.time)) :
    List.Sorted (· < ·) ((resample df tf).map fun r_ => r_.time) := by
  have hs' : List.Pairwise (· ≤ ·) (df.map Bar.time) := hs
  have hkeys_le :
      List.Pairwise (· ≤ ·) (df.map fun b => bucketStart tf b.time) := by
    rw [List.pairwise_map] at hs' ⊢
    exact hs'.imp fun h =>
      Nat.mul_le_mul_right tf (Nat.div_le_div_right h)
  have hded_le :
      List.Pairwise (· ≤ ·) ((df.map fun b => bucketStart tf b.time).dedup) :=
    List.Pairwise.sublist (List.dedup_sublist _) hkeys_le
  have hded_lt :
      List.Pairwise (· < ·) ((df.map fun b => bucketStart tf b.time).dedup) :=
    List.Sorted.lt_of_le hded_le (List.nodup_dedup _)
  exact List.Pairwise.sublist (filterMap_aggBucket_times_sublist tf df _) hded_lt

theorem resample_bucket_reduction {df : List Bar} {tf : Nat} {r_ : BarC}
    (hr : r_ ∈ resample df tf) :
    ∃ x xs, df.filter (fun y => bucketStart tf y.time == r_.time) = x :: xs
      ∧ r_.o = x.o
      ∧ (r_.h ∈ (x :: xs).map Bar.h ∧ ∀ y ∈ (x :: xs).map Bar.h, y ≤ r_.h)
      ∧ (r_.l ∈ (x :: xs).map Bar.l ∧ ∀ y ∈ (x :: xs).map Bar.l, r_.l ≤ y)
      ∧ r_.c = (xs.getLastD x).c
      ∧ r_.v = ((x :: xs).map Bar.v).sum
      ∧ r_.color = colorOf r_.o r_.c := by
  obtain ⟨bkt, _, hab⟩ := mem_resample.mp hr
  have ht := aggBucket_time hab
  cases hf : df.filter (fun y => bucketStart tf y.time == bkt) with
  | nil => simp [aggBucket, hf] at hab
  | cons x xs =>
    simp only [aggBucket, hf, Option.some.injEq] at hab
    refine ⟨x, xs, ?_, ?_, ?_, ?_, ?_, ?_, ?_⟩
    · rw [ht]; exact hf
    · rw [← hab]
    · rw [← hab]
      show xs.foldl (fun a y => max a y.h) x.h ∈ _
        ∧ ∀ y ∈ (x :: xs).map Bar.h, y ≤ xs.foldl (fun a y => max a y.h) x.h
      rw [← List.foldl_map Bar.h max xs x.h]
      constructor
      · rw [List.map_cons]
        rcases foldl_max_eq_init_or_mem (xs.map Bar.h) x.h with h | h
        · rw [h]; exact List.mem_cons_self _ _
        · exact List.mem_cons_of_mem _ h
      · intro y hy
        rw [List.map_cons] at hy
        rcases List.mem_cons.mp hy with h | h
        · rw [h]; exact foldl_max_init_le _ _
        · exact foldl_max_mem_le _ _ y h
    · rw [← hab]
      show xs.foldl (fun a y => min a y.l) x.l ∈ _
        ∧ ∀ y ∈ (x :: xs).map Bar.l, xs.foldl (fun a y => min a y.l) x.l ≤ y
      rw [← List.foldl_map Bar.l min xs x.l]
      constructor
      · rw [List.map_cons]
        rcases foldl_min_eq_init_or_mem (xs.map Bar.l) x.l with h | h
        · rw [h]; exact List.mem_cons_self _ _
        · exact List.mem_cons_of_mem _ h
      · intro y hy
        rw [List.map_cons] at hy
        rcases List.mem_cons.mp hy with h | h
        · rw [h]; exact foldl_min_le_init _ _
        · exact foldl_min_le_mem _ _ y h
    · rw [← hab]
    · rw [← hab]
      show x.v + (xs.map Bar.v).sum = _
      rw [List.map_cons, List.sum_cons]
    · rw [← hab]



theorem slice_filter_bucket_closed (df : List Bar) (tf T b : Nat)
    (htf : 0 < tf) (h : b + tf ≤ T + 1) :
    (sliceRaw df T).filter (fun x => bucketStart tf x.time == b)
      = df.filter (fun x => bucketStart tf x.time == b) := by
  unfold sliceRaw
  rw [List.filter_filter]
  apply List.filter_congr
  intro x _
  cases hbx : (bucketStart tf x.time == b) with
  | false => simp [hbx]
  | true =>
    have hb' : bucketStart tf x.time = b := by simpa using hbx
    have hlt := lt_bucketStart_add tf x.time htf
    rw [hb'] at hlt
    have hxT : x.time ≤ T := by omega
    simp [hbx, hxT]

theorem slice_filter_bucket_at_cutoff (df : List Bar) (tf T : Nat) :
    (sliceRaw df T).filter (fun x => bucketStart tf x.time == T)
      = (df.filter fun x => x.time == T).filter
          (fun x => bucketStart tf x.time == T) := by
  unfold sliceRaw
  rw [List.filter_filter, List.filter_filter]
  apply List.filter_congr
  intro x _
  cases hbx : (bucketStart tf x.time == T) with
  | false => simp [hbx]
  | true =>
    have hb' : bucketStart tf x.time = T := by simpa using hbx
    have h1 : T ≤ x.time := by
      have := bucketStart_le tf x.time
      omega
    cases htx : (x.time == T) with
    | true =>
      have hx : x.time = T := by simpa using htx
      simp [hbx, htx, hx]
    | false =>
      have hx : x.time ≠ T := by simpa using htx
      have hnle : ¬ (x.time ≤ T) := by omega
      simp [hbx, htx, hnle]

theorem filter_time_eq_self (tf : Nat) :
    ∀ l : List Bar, (l.map Bar.time).Nodup →
      (∀ x ∈ l, bucketStart tf x.time = x.time) →
      ∀ b ∈ l, l.filter (fun x => bucketStart tf x.time == b.time) = [b] := by
  intro l
  induction l with
  | nil => intro _ _ b hb; cases hb
  | cons a l' ih =>
    intro hnd halign b hb
    rw [List.map_cons, List.nodup_cons] at hnd
    obtain ⟨hna, hnd'⟩ := hnd
    have hpa : bucketStart tf a.time = a.time :=
      halign a (List.mem_cons_self a l')
    rcases List.mem_cons.mp hb with rfl | hb'
    · rw [List.filter_cons_of_pos (by simp [hpa])]
      have hrest : l'.filter (fun x => bucketStart tf x.time == b.time) = [] := by
        rw [List.filter_eq_nil_iff]
        intro x hx
        have hx' : bucketStart tf x.time = x.time :=
          halign x (List.mem_cons_of_mem _ hx)
        simp only [hx', beq_iff_eq]
        exact fun hEq => hna (hEq ▸ List.mem_map_of_mem Bar.time hx)
      rw [hrest]
    · have hne : a.time ≠ b.time :=
        fun hEq => hna (hEq ▸ List.mem_map_of_mem Bar.time hb')
      rw [List.filter_cons_of_neg (by simp [hpa, hne])]
      exact ih hnd' (fun x hx => halign x (List.mem_cons_of_mem _ hx)) b hb'

theorem filterMap_times_self :
    ∀ (l2 : List BarC) (f : Nat → Option BarC),
      (∀ b ∈ l2, f b.time = some b) →
      (l2.map fun b => b.time).filterMap f = l2 := by
  intro l2
  induction l2 with
  | nil => intro f _; simp
  | cons b l ih =>
    intro f hf
    rw [List.map_cons, List.filterMap_cons, hf b (List.mem_cons_self b l)]
    rw [ih f fun x hx => hf x (List.mem_cons_of_mem _ hx)]

theorem foldl_flag_eq_any (p : List Bar → Bool) :
    ∀ (charts : List (List Bar)) (acc : Bool),
      charts.foldl (fun acc raw => if p raw then true else acc) acc
        = (acc || charts.any p) := by
  intro charts
  induction charts with
  | nil => intro acc; simp
  | cons c cs ih =>
    intro acc
    rw [List.foldl_cons, List.any_cons, ih (if p c then true else acc)]
    cases hp : p c <;> simp [hp]

theorem minDelta_mem (ds : List Nat) (h : ds ≠ []) : minDelta ds ∈ ds := by
  cases ds with
  | nil => exact absurd rfl h
  | cons d ds' =>
    show ds'.foldl min d ∈ d :: ds'
    rcases foldl_min_eq_init_or_mem ds' d with h1 | h1
    · rw [h1]; exact List.mem_cons_self d ds'
    · exact List.mem_cons_of_mem _ h1

theorem minDelta_le (ds : List Nat) : ∀ x ∈ ds, minDelta ds ≤ x := by
  intro x hx
  cases ds with
  | nil => cases hx
  | cons d ds' =>
    rcases List.mem_cons.mp hx with rfl | h
    · exact foldl_min_le_init ds' x
    · exact foldl_min_le_mem ds' d x h

theorem renderChartData_replay (raw : List Bar) (T tf : Nat) :
    renderChartData raw true (some T) tf = replayView raw tf T := by
  unfold renderChartData
  cases h1 : raw.isEmpty with
  | false => simp
  | true =>
    have hnil : raw = [] := by simpa using h1
    subst hnil
    rfl

/-! ### Claim theorems -/

/-- C3: on every time-ordered input series and every timeframe,
`resample_data` produces output sorted strictly ascending by bucket
start, with exactly one output bar per non-empty bucket and no row for
an empty bucket, where open = the first contributing bar's open, high =
the max of highs, low = the min of lows, close = the last contributing
bar's close, volume = the sum of volumes, and color derived from the
final open/close. -/
theorem resample_data_correct (df : List Bar) (tf : Nat)
    (hs : List.Sorted (· ≤ ·) (df.map Bar.time)) :
    List.Sorted (· < ·) ((resample df tf).map fun r_ => r_.time)
    ∧ (∀ bkt : Nat,
        (∃ x ∈ df, bucketStart tf x.time = bkt)
          ↔ ∃ r_ ∈ resample df tf, r_.time = bkt)
    ∧ ∀ r_ ∈ resample df tf,
        ∃ x xs,
          df.filter (fun y => bucketStart tf y.time == r_.time) = x :: xs
          ∧ r_.o = x.o
          ∧ (r_.h ∈ (x :: xs).map Bar.h ∧ ∀ y ∈ (x :: xs).map Bar.h, y ≤ r_.h)
          ∧ (r_.l ∈ (x :: xs).map Bar.l ∧ ∀ y ∈ (x :: xs).map Bar.l, r_.l ≤ y)
          ∧ r_.c = (xs.getLastD x).c
          ∧ r_.v = ((x :: xs).map Bar.v).sum
          ∧ r_.color = colorOf r_.o r_.c := by
  refine ⟨resample_times_sorted df tf hs, ?_,
    fun r_ hr => resample_bucket_reduction hr⟩
  intro bkt
  constructor
  · rintro ⟨x, hx, hbx⟩
    obtain ⟨r_, hr⟩ := aggBucket_isSome_of_mem hx hbx
    exact ⟨r_, mem_resample.mpr ⟨bkt, ⟨x, hx, hbx⟩, hr⟩, aggBucket_time hr⟩
  · rintro ⟨r_, hr, rfl⟩
    obtain ⟨bkt', ⟨x, hx, hbx⟩, hab⟩ := mem_resample.mp hr
    rw [aggBucket_time hab]
    exact ⟨x, hx, hbx⟩

/-- C3 witness: the aggregation theorem applied to a concrete
5-minute aggregation of four 1-minute bars. -/
theorem resample_data_correct_witness :
    List.Sorted (· < ·)
      ((resample [⟨0,10,12,9,11,1⟩, ⟨1,11,15,10,14,2⟩,
                  ⟨5,14,14,13,13,3⟩, ⟨11,13,13,12,12,4⟩] 5).map
        fun r_ => r_.time) :=
  (resample_data_correct
    [⟨0,10,12,9,11,1⟩, ⟨1,11,15,10,14,2⟩, ⟨5,14,14,13,13,3⟩,
     ⟨11,13,13,12,12,4⟩] 5 (by decide)).1

/-- C6: aggregating an already-bucket-aligned series again at the same
timeframe is the identity: if every bar's timestamp sits on a bucket
boundary of `tf` (as in the output of `resample_data` at `tf`), the
timestamps are strictly increasing and the color field is consistent
with the open/close, then `resample_data` maps the series to itself,
the color being recomputed to the same value. -/
theorem resample_idempotent (dfc : List BarC) (tf : Nat)
    (hs : List.Sorted (· < ·) (dfc.map fun b => b.time))
    (halign : ∀ b ∈ dfc, b.time % tf = 0)
    (hcolor : ∀ b ∈ dfc, b.color = colorOf b.o b.c) :
    resample (dfc.map BarC.toBar) tf = dfc := by
  have halign' : ∀ x ∈ dfc.map BarC.toBar, bucketStart tf x.time = x.time := by
    intro x hx
    rw [List.mem_map] at hx
    obtain ⟨b, hb, rfl⟩ := hx
    exact Nat.div_mul_cancel (Nat.dvd_of_mod_eq_zero (halign b hb))
  have hnd2 : (dfc.map fun b => b.time).Nodup :=
    List.Pairwise.imp (fun hlt => Nat.ne_of_lt hlt) hs
  have htimes : (dfc.map BarC.toBar).map Bar.time = dfc.map fun b => b.time := by
    rw [List.map_map]; rfl
  have hnd : ((dfc.map BarC.toBar).map Bar.time).Nodup := by
    rw [htimes]; exact hnd2
  have hkeys :
      ((dfc.map BarC.toBar).map fun b => bucketStart tf b.time).dedup
        = dfc.map fun b => b.time := by
    have h1 : ((dfc.map BarC.toBar).map fun b => bucketStart tf b.time)
        = (dfc.map BarC.toBar).map Bar.time :=
      List.map_congr_left fun x hx => halign' x hx
    rw [h1, htimes, List.dedup_eq_self]
    exact hnd2
  unfold resample
  rw [hkeys]
  apply filterMap_times_self
  intro b hb
  have hf := filter_time_eq_self tf (dfc.map BarC.toBar) hnd halign' b.toBar
    (List.mem_map_of_mem BarC.toBar hb)
  have hc := hcolor b hb
  simp [aggBucket, hf, ← hc]

/-- C6 witness: idempotence at a concrete bucket-aligned two-bar
series. -/
theorem resample_idempotent_witness :
    resample (([⟨⟨0,1,2,0,1,3⟩, greenColor⟩,
                ⟨⟨5,2,2,1,1,4⟩, redColor⟩] : List BarC).map BarC.toBar) 5
      = [⟨⟨0,1,2,0,1,3⟩, greenColor⟩, ⟨⟨5,2,2,1,1,4⟩, redColor⟩] :=
  resample_idempotent
    [⟨⟨0,1,2,0,1,3⟩, greenColor⟩, ⟨⟨5,2,2,1,1,4⟩, redColor⟩] 5
    (by decide) (by decide) (by decide)

/-- C9: no look-ahead. The replay branch of `render_chart_unit` is a
function of only the raw bars at or before the playhead: two raw series
whose slices at the cutoff agree render identically in replay mode, so
no displayed field can incorporate a bar from after the cutoff. -/
theorem replay_no_lookahead (raw1 raw2 : List Bar) (tf T : Nat)
    (h : sliceRaw raw1 T = sliceRaw raw2 T) :
    renderChartData raw1 true (some T) tf
      = renderChartData raw2 true (some T) tf := by
  rw [renderChartData_replay, renderChartData_replay]
  unfold replayView
  rw [h]

/-- C9 witness: two series that differ only after the cutoff (minute 5)
render identically at that cutoff. -/
theorem replay_no_lookahead_witness :
    sliceRaw [⟨0,1,1,1,1,1⟩, ⟨9,2,2,2,2,2⟩] 5
        = sliceRaw [⟨0,1,1,1,1,1⟩, ⟨7,9,9,9,9,9⟩] 5
    ∧ renderChartData [⟨0,1,1,1,1,1⟩, ⟨9,2,2,2,2,2⟩] true (some 5) 1
        = renderChartData [⟨0,1,1,1,1,1⟩, ⟨7,9,9,9,9,9⟩] true (some 5) 1 :=
  ⟨by decide,
   replay_no_lookahead [⟨0,1,1,1,1,1⟩, ⟨9,2,2,2,2,2⟩]
     [⟨0,1,1,1,1,1⟩, ⟨7,9,9,9,9,9⟩] 1 5 (by decide)⟩

/-- C1 counterexample: the claim as stated is false on the code. With
1-minute bars at minutes 0, 5 and 6 and timeframe 5, the cutoff T = 5 is
the bucket-start of aggregated bar k = 1, but the replay view at T does
NOT equal the prefix of the full aggregation with bucket-start ≤ T: the
code slices the RAW data first and then resamples, so bar k appears as a
partial candle (volume 1, close 20) instead of the full bucket reduction
(volume 2, close 30). -/
theorem causal_slicing_claim_counterexample :
    replayView [⟨0,10,10,10,10,1⟩, ⟨5,20,20,20,20,1⟩, ⟨6,30,31,19,30,1⟩] 5 5
      ≠ (resample [⟨0,10,10,10,10,1⟩, ⟨5,20,20,20,20,1⟩,
                   ⟨6,30,31,19,30,1⟩] 5).filter
          (fun r_ => r_.time ≤ 5) := by decide

/-- C1 amended: at a cutoff T equal to a bucket boundary of the
timeframe, the replay view (slice raw, then resample) shows only bars
with bucket-start ≤ T — bar k+1 never appears; every bar strictly before
T's bucket is identical to the corresponding bar of the full
aggregation; and the bar at bucket T itself, when present, is the
reduction of only the raw bars of that bucket with timestamp ≤ T (those
at exactly T), i.e. a partial candle rather than the full bucket
reduction. -/
theorem replay_at_bucket_boundary (df : List Bar) (tf T : Nat)
    (htf : 0 < tf) (hT : T % tf = 0) :
    (∀ r_ ∈ replayView df tf T, r_.time ≤ T)
    ∧ (∀ r_ : BarC, r_.time < T →
        (r_ ∈ replayView df tf T ↔ r_ ∈ resample df tf))
    ∧ (∀ r_ ∈ replayView df tf T, r_.time = T →
        aggBucket tf (df.filter fun x => x.time == T) T = some r_) := by
  refine ⟨?_, ?_, ?_⟩
  · intro r_ hr
    obtain ⟨bkt, ⟨x, hx, hbx⟩, hab⟩ := mem_resample.mp hr
    have ht := aggBucket_time hab
    have hxT : x.time ≤ T := by
      have := List.mem_filter.mp hx
      simpa using this.2
    have hble := bucketStart_le tf x.time
    omega
  · intro r_ hrT
    constructor
    · intro hr
      obtain ⟨bkt, ⟨x, hx, hbx⟩, hab⟩ := mem_resample.mp hr
      have ht := aggBucket_time hab
      have hmod : bkt % tf = 0 := by rw [← hbx]; exact bucketStart_mod tf x.time
      have hclosed : bkt + tf ≤ T + 1 :=
        le_trans (add_le_of_multiple_lt hmod hT (ht ▸ hrT)) (Nat.le_succ T)
      have hgrp := slice_filter_bucket_closed df tf T bkt htf hclosed
      refine mem_resample.mpr ⟨bkt, ⟨x, ?_, hbx⟩, ?_⟩
      · exact List.mem_of_mem_filter hx
      · rw [← aggBucket_congr hgrp]; exact hab
    · intro hr
      obtain ⟨bkt, ⟨x, hx, hbx⟩, hab⟩ := mem_resample.mp hr
      have ht := aggBucket_time hab
      have hmod : bkt % tf = 0 := by rw [← hbx]; exact bucketStart_mod tf x.time
      have hclosed : bkt + tf ≤ T + 1 :=
        le_trans (add_le_of_multiple_lt hmod hT (ht ▸ hrT)) (Nat.le_succ T)
      have hgrp := slice_filter_bucket_closed df tf T bkt htf hclosed
      have hxbkt : x.time < bkt + tf := by
        have := lt_bucketStart_add tf x.time htf
        omega
      have hxT : x.time ≤ T := by omega
      refine mem_resample.mpr ⟨bkt, ⟨x, ?_, hbx⟩, ?_⟩
      · exact List.mem_filter.mpr ⟨hx, by simpa using hxT⟩
      · rw [aggBucket_congr hgrp]; exact hab
  · intro r_ hr htime
    obtain ⟨bkt, ⟨x, hx, hbx⟩, hab⟩ := mem_resample.mp hr
    have ht := aggBucket_time hab
    have hbT : bkt = T := by omega
    subst hbT
    rw [← aggBucket_congr (slice_filter_bucket_at_cutoff df tf bkt)]
    exact hab

/-- C1 amended witness: the amended theorem applied at the concrete
counterexample data — the fully closed bucket-0 bar is shown identically
in replay view and full aggregation at cutoff 5. -/
theorem replay_at_bucket_boundary_witness :
    (⟨⟨0,10,10,10,10,1⟩, greenColor⟩ : BarC)
        ∈ replayView [⟨0,10,10,10,10,1⟩, ⟨5,20,20,20,20,1⟩,
                      ⟨6,30,31,19,30,1⟩] 5 5
      ↔ (⟨⟨0,10,10,10,10,1⟩, greenColor⟩ : BarC)
        ∈ resample [⟨0,10,10,10,10,1⟩, ⟨5,20,20,20,20,1⟩,
                    ⟨6,30,31,19,30,1⟩] 5 :=
  (replay_at_bucket_boundary
    [⟨0,10,10,10,10,1⟩, ⟨5,20,20,20,20,1⟩, ⟨6,30,31,19,30,1⟩] 5 5
    (by decide) (by decide)).2.1
    ⟨⟨0,10,10,10,10,1⟩, greenColor⟩ (by decide)

/-- C2 counterexample: the claim as stated is false on the code. With a
1-minute chart left in Viewer Mode next to a 1-day chart in Replay Mode
(both with data), the code's resolved step is 1 minute — the viewer-mode
chart DOES influence the step, because `render_chart_unit` stores its
delta in `chart_deltas` unconditionally — while the spec's
replay-views-only resolver yields 1 day. -/
theorem stepsize_claim_counterexample :
    minDelta (chartDeltas
        [⟨"1min", "Viewer Mode", [⟨0,1,1,1,1,1⟩]⟩,
         ⟨"1D", "Replay Mode", [⟨0,1,1,1,1,1⟩]⟩])
      ≠ minDeltaSpec
        [⟨"1min", "Viewer Mode", [⟨0,1,1,1,1,1⟩]⟩,
         ⟨"1D", "Replay Mode", [⟨0,1,1,1,1,1⟩]⟩] := by decide

/-- C2 amended: the resolved playback step size is the minimum timeframe
width over ALL rendered charts — regardless of view mode, ticker or
data, since every rendered chart reports its delta — and defaults to
1 minute only when no chart reported a delta. -/
theorem minDelta_resolves_all_views (views : List ViewConfig) :
    (views = [] → minDelta (chartDeltas views) = 1)
    ∧ (views ≠ [] →
        (∃ v_ ∈ views, minDelta (chartDeltas views) = tfWidthMin v_.tfAgg)
        ∧ ∀ v_ ∈ views, minDelta (chartDeltas views) ≤ tfWidthMin v_.tfAgg) := by
  constructor
  · rintro rfl; rfl
  · intro h
    constructor
    · have hmem : minDelta (chartDeltas views) ∈ chartDeltas views := by
        apply minDelta_mem
        unfold chartDeltas
        intro hm
        exact h (List.map_eq_nil_iff.mp hm)
      unfold chartDeltas at hmem
      rw [List.mem_map] at hmem
      obtain ⟨v_, hv, heq⟩ := hmem
      exact ⟨v_, hv, heq.symm⟩
    · intro v_ hv
      exact minDelta_le _ _ (List.mem_map_of_mem _ hv)

/-- C2 amended witness: the amended resolver property at a concrete
two-view workspace (viewer-mode 1-minute chart and replay-mode 1-day
chart): the resolved step is some view's width and is minimal. -/
theorem minDelta_resolves_all_views_witness :
    (∃ v_ ∈ [(⟨"1min", "Viewer Mode", [⟨0,1,1,1,1,1⟩]⟩ : ViewConfig),
             ⟨"1D", "Replay Mode", [⟨0,1,1,1,1,1⟩]⟩],
        minDelta (chartDeltas
          [⟨"1min", "Viewer Mode", [⟨0,1,1,1,1,1⟩]⟩,
           ⟨"1D", "Replay Mode", [⟨0,1,1,1,1,1⟩]⟩]) = tfWidthMin v_.tfAgg)
    ∧ ∀ v_ ∈ [(⟨"1min", "Viewer Mode", [⟨0,1,1,1,1,1⟩]⟩ : ViewConfig),
              ⟨"1D", "Replay Mode", [⟨0,1,1,1,1,1⟩]⟩],
        minDelta (chartDeltas
          [⟨"1min", "Viewer Mode", [⟨0,1,1,1,1,1⟩]⟩,
           ⟨"1D", "Replay Mode", [⟨0,1,1,1,1,1⟩]⟩]) ≤ tfWidthMin v_.tfAgg :=
  (minDelta_resolves_all_views
    [⟨"1min", "Viewer Mode", [⟨0,1,1,1,1,1⟩]⟩,
     ⟨"1D", "Replay Mode", [⟨0,1,1,1,1,1⟩]⟩]).2 (by decide)

/-- C4: no-data guard. When the frame's `has_valid_data` flag is false
and playback is not running, `on_play_click` and `on_next_click` leave
the playing flag false, leave the playhead instant unchanged, and each
emit the user-visible no-data toast; the whole state is untouched. -/
theorem no_data_guard (s : SessionState) (h : s.hasValidData = false)
    (hp : s.playing = false) :
    (onPlayClick s).1.playing = false
    ∧ (onNextClick s).1.playing = false
    ∧ (onPlayClick s).1.globalDt = s.globalDt
    ∧ (onNextClick s).1.globalDt = s.globalDt
    ∧ (onPlayClick s).2 = [noDataToast]
    ∧ (onNextClick s).2 = [noDataToast]
    ∧ onPlayClick s = (s, [noDataToast])
    ∧ onNextClick s = (s, [noDataToast]) := by
  simp [onPlayClick, onNextClick, h, hp]

/-- C4 witness: the guard theorem at a concrete no-data state. -/
theorem no_data_guard_witness :
    (onPlayClick ⟨0, false, false, ⟨2024,1,6⟩, ["Viewer Mode"], false, [1], 1⟩).1.playing
      = false
    ∧ (onNextClick ⟨0, false, false, ⟨2024,1,6⟩, ["Viewer Mode"], false, [1], 1⟩).1.playing
      = false
    ∧ (onPlayClick ⟨0, false, false, ⟨2024,1,6⟩, ["Viewer Mode"], false, [1], 1⟩).1.globalDt
      = (0 : Nat)
    ∧ (onNextClick ⟨0, false, false, ⟨2024,1,6⟩, ["Viewer Mode"], false, [1], 1⟩).1.globalDt
      = (0 : Nat)
    ∧ (onPlayClick ⟨0, false, false, ⟨2024,1,6⟩, ["Viewer Mode"], false, [1], 1⟩).2
      = [noDataToast]
    ∧ (onNextClick ⟨0, false, false, ⟨2024,1,6⟩, ["Viewer Mode"], false, [1], 1⟩).2
      = [noDataToast] :=
  have hall := no_data_guard
    ⟨0, false, false, ⟨2024,1,6⟩, ["Viewer Mode"], false, [1], 1⟩ rfl rfl
  ⟨hall.1, hall.2.1, hall.2.2.1, hall.2.2.2.1, hall.2.2.2.2.1,
   hall.2.2.2.2.2.1⟩

/-- C5: date change. From any state, `on_date_change` to date D sets the
playhead to 09:29 America/New_York on D — including that date's DST
offset (UTC+? = local + 240 minutes under DST, + 300 otherwise) —
converted to UTC, stores D as the picker value, clears the playing flag,
activates replay, and forces every view's mode to Replay Mode. -/
theorem date_change_seeks (d : DateYMD) (s : SessionState) :
    (onDateChange d s).1.globalDt
        = dayNumber d * 1440 + (9 * 60 + 29)
            + (if nyIsDST d then 240 else 300)
    ∧ (onDateChange d s).1.playing = false
    ∧ (onDateChange d s).1.replayActive = true
    ∧ (onDateChange d s).1.pickerVal = d
    ∧ (∀ m_ ∈ (onDateChange d s).1.viewModes, m_ = "Replay Mode")
    ∧ (onDateChange d s).1.viewModes.length = s.viewModes.length := by
  refine ⟨rfl, rfl, rfl, rfl, ?_, by simp [onDateChange]⟩
  intro m_ hm
  simp only [onDateChange, List.mem_map] at hm
  obtain ⟨_, _, rfl⟩ := hm
  rfl

/-- C5 witness: the seek theorem at a summer date (2024-07-05, DST,
offset 240) and a winter date (2024-01-05, standard time, offset 300),
each from a playing state: both land on 09:29 New York = 13:29 resp.
14:29 UTC and clear the playing flag. -/
theorem date_change_seeks_witness :
    ((onDateChange ⟨2024,7,5⟩
        ⟨0, true, false, ⟨2024,1,1⟩, ["Viewer Mode"], true, [1], 1⟩).1.globalDt
      = dayNumber ⟨2024,7,5⟩ * 1440 + (9 * 60 + 29) + 240
      ∧ (onDateChange ⟨2024,7,5⟩
          ⟨0, true, false, ⟨2024,1,1⟩, ["Viewer Mode"], true, [1], 1⟩).1.playing
        = false)
    ∧ ((onDateChange ⟨2024,1,5⟩
        ⟨0, true, false, ⟨2024,1,1⟩, ["Viewer Mode"], true, [1], 1⟩).1.globalDt
      = dayNumber ⟨2024,1,5⟩ * 1440 + (9 * 60 + 29) + 300
      ∧ (onDateChange ⟨2024,1,5⟩
          ⟨0, true, false, ⟨2024,1,1⟩, ["Viewer Mode"], true, [1], 1⟩).1.playing
        = false) :=
  have h1 := date_change_seeks ⟨2024,7,5⟩
    ⟨0, true, false, ⟨2024,1,1⟩, ["Viewer Mode"], true, [1], 1⟩
  have h2 := date_change_seeks ⟨2024,1,5⟩
    ⟨0, true, false, ⟨2024,1,1⟩, ["Viewer Mode"], true, [1], 1⟩
  ⟨⟨by rw [h1.1]; decide, h1.2.1⟩, ⟨by rw [h2.1]; decide, h2.2.1⟩⟩

/-- C7: the play loop. In the Playing state, one scheduling cycle of
`render_workspace_fragment` first sleeps for the configured speed in
seconds, then advances the playhead by exactly the resolved minimum
step, then re-triggers itself (`st.rerun`); in any non-Playing state the
cycle performs no action at all — no rerun and no playhead movement — so
the playhead never advances spontaneously outside Playing. -/
theorem play_loop_only_playing_advances (s : SessionState) :
    (s.playing = true →
      endOfCycle s
        = ({ s with globalDt := s.globalDt + minDelta s.chartDeltasVals },
           [PlayAction.sleepFor s.speed,
            PlayAction.advance (minDelta s.chartDeltasVals),
            PlayAction.rerun]))
    ∧ (s.playing = false →
        (endOfCycle s).1 = s ∧ (endOfCycle s).2 = []
        ∧ PlayAction.rerun ∉ (endOfCycle s).2) := by
  constructor
  · intro h; simp [endOfCycle, h]
  · intro h; simp [endOfCycle, h]

/-- C7 witness: one playing cycle at speed 2 s with charts at 5- and
30-minute timeframes advances the playhead by exactly 5 minutes after
the sleep and re-triggers; the same state paused does nothing. -/
theorem play_loop_only_playing_advances_witness :
    endOfCycle ⟨100, true, true, ⟨2024,1,5⟩, ["Replay Mode"], true, [5, 30], 2⟩
      = (⟨105, true, true, ⟨2024,1,5⟩, ["Replay Mode"], true, [5, 30], 2⟩,
         [PlayAction.sleepFor 2, PlayAction.advance 5, PlayAction.rerun])
    ∧ (endOfCycle
        ⟨100, false, true, ⟨2024,1,5⟩, ["Replay Mode"], true, [5, 30], 2⟩).1
      = ⟨100, false, true, ⟨2024,1,5⟩, ["Replay Mode"], true, [5, 30], 2⟩ :=
  ⟨by
    rw [(play_loop_only_playing_advances
      ⟨100, true, true, ⟨2024,1,5⟩, ["Replay Mode"], true, [5, 30], 2⟩).1 rfl]
    rfl,
   ((play_loop_only_playing_advances
      ⟨100, false, true, ⟨2024,1,5⟩, ["Replay Mode"], true, [5, 30], 2⟩).2
        rfl).1⟩

/-- Unfolding equation of `loadMasterData` on a successful query. -/
theorem loadMasterData_ok (rows : List RawRow) :
    loadMasterData (Except.ok rows)
      = if rows.isEmpty then ([], [])
        else
          match rows.mapM parseRow with
          | none => ([], ["DATA PARSING ERROR"])
          | some bars => (bars, []) := rfl

/-- C8: data-layer failure containment in `load_master_data`. A failed
query yields the empty series plus a reported DB-read error; a type
conversion failure on the fetched rows yields the empty series plus a
reported parse error; and whenever a non-empty series is returned it is
exactly the fully-typed parse of all fetched rows — downstream code
never sees an exception or a partially-parsed row. -/
theorem data_layer_containment (q : Except String (List RawRow)) :
    (∀ e, q = Except.error e →
        loadMasterData q = ([], ["DB READ ERROR: " ++ e]))
    ∧ (∀ rows, q = Except.ok rows → rows.mapM parseRow = none →
        loadMasterData q = ([], ["DATA PARSING ERROR"]))
    ∧ ((loadMasterData q).1 ≠ [] →
        ∃ rows, q = Except.ok rows
          ∧ rows.mapM parseRow = some (loadMasterData q).1) := by
  refine ⟨?_, ?_, ?_⟩
  · rintro e rfl; rfl
  · rintro rows rfl hparse
    cases rows with
    | nil => exact Option.noConfusion hparse
    | cons r rs =>
      rw [loadMasterData_ok, hparse]
      rfl
  · intro hne
    cases q with
    | error e => exact absurd rfl hne
    | ok rows =>
      cases rows with
      | nil => exact absurd rfl hne
      | cons r rs =>
        cases hp : (r :: rs).mapM parseRow with
        | none =>
          exfalso
          apply hne
          rw [loadMasterData_ok, hp]
          rfl
        | some bars =>
          refine ⟨r :: rs, rfl, ?_⟩
          rw [loadMasterData_ok, hp]
          rfl

/-- C8 witness: a concrete failed query degrades to the empty series
with a DB-read report, and a concrete malformed row (bad timestamp)
degrades to the empty series with a parse report. -/
theorem data_layer_containment_witness :
    loadMasterData (Except.error "connection reset")
        = ([], ["DB READ ERROR: " ++ "connection reset"])
    ∧ loadMasterData (Except.ok [⟨"bad-ts", "1", "2", "0", "1", "3"⟩])
        = ([], ["DATA PARSING ERROR"]) :=
  ⟨(data_layer_containment (Except.error "connection reset")).1
      "connection reset" rfl,
   (data_layer_containment
      (Except.ok [⟨"bad-ts", "1", "2", "0", "1", "3"⟩])).2.1
      [⟨"bad-ts", "1", "2", "0", "1", "3"⟩] rfl (by decide)⟩

/-- C10: the has-data flag becomes true iff some rendered chart's loaded
raw series contains a bar whose UTC calendar date equals the picker
date; and because the comparison uses UTC dates, a bar whose New York
local time lies in the evening 20:00–24:00 window falls on the FOLLOWING
UTC calendar day, so with extended hours it counts toward the next day's
flag rather than its own trading day's. -/
theorem has_data_flag_semantics (charts : List (List Bar)) (pickerDay : Nat) :
    (computeHasValidData charts pickerDay = true
      ↔ ∃ raw ∈ charts, ∃ b ∈ raw, utcDateOf b.time = pickerDay)
    ∧ ∀ (d : DateYMD) (m_ : Nat), 1200 ≤ m_ → m_ < 1440 →
        utcDateOf (nyLocalToUTCmin d m_) = dayNumber d + 1 := by
  constructor
  · rw [computeHasValidData, foldl_flag_eq_any]
    simp only [Bool.false_or]
    rw [List.any_eq_true]
    constructor
    · rintro ⟨raw, hraw, hp⟩
      rw [Bool.and_eq_true] at hp
      obtain ⟨_, hdata⟩ := hp
      rw [hasDataForDate, List.any_eq_true] at hdata
      obtain ⟨b, hb, hbp⟩ := hdata
      exact ⟨raw, hraw, b, hb, by simpa using hbp⟩
    · rintro ⟨raw, hraw, b, hb, hdate⟩
      refine ⟨raw, hraw, ?_⟩
      rw [Bool.and_eq_true]
      refine ⟨?_, ?_⟩
      · have hnn : raw ≠ [] := List.ne_nil_of_mem hb
        simp [List.isEmpty_iff, hnn]
      · rw [hasDataForDate, List.any_eq_true]
        exact ⟨b, hb, by simpa using hdate⟩
  · intro d m_ h1 h2
    have hoff : nyUtcOffsetMin d = 240 ∨ nyUtcOffsetMin d = 300 := by
      unfold nyUtcOffsetMin
      cases hdst : nyIsDST d <;> simp [hdst]
    unfold utcDateOf nyLocalToUTCmin
    rcases hoff with h | h <;> rw [h] <;> omega

/-- C10 witness: a chart whose only bar sits at UTC minute 1440 (UTC day
1) sets the flag for picker day 1; and a 20:30 New York bar on
2024-07-05 lands on UTC day `dayNumber 2024-07-05 + 1`. -/
theorem has_data_flag_semantics_witness :
    computeHasValidData [[⟨1440, 1, 1, 1, 1, 1⟩]] 1 = true
    ∧ utcDateOf (nyLocalToUTCmin ⟨2024,7,5⟩ 1230)
      = dayNumber ⟨2024,7,5⟩ + 1 :=
  ⟨(has_data_flag_semantics [[⟨1440, 1, 1, 1, 1, 1⟩]] 1).1.mpr
      ⟨[⟨1440, 1, 1, 1, 1, 1⟩], List.mem_cons_self _ _,
       ⟨1440, 1, 1, 1, 1, 1⟩, List.mem_cons_self _ _, rfl⟩,
   (has_data_flag_semantics [] 0).2 ⟨2024,7,5⟩ 1230 (by decide) (by decide)⟩
